import Mathlib

/-!
Verification of the SAIH water-level alert generator (`generate_rss.py`).

The script polls a hydrological page, parses per-station readings, and runs a
threshold-crossing state machine with hysteresis-based rearming, emitting RSS
alert items.  We embed the program shallowly:

* Python floats are modelled as rationals (`ℚ`).  Every numeric literal in the
  program and in the claims (thresholds such as `2.5`, the hysteresis `0.05`,
  readings such as `2.96`) is an exact decimal, and every comparison performed
  by the claims is at a distance far above the double-precision rounding error,
  so the rational model and the IEEE-double execution decide every comparison
  the same way.
* The persisted state file and the Python `json` module are modelled at the
  JSON-value level: `json.loads (json.dumps v) = v` for the values the program
  writes, so a file is an `Option Json` (`none` = the file does not exist).
* Strings are Lean `String`s; Python string helpers (`strip`, `lower`,
  `split`, `re.search` for the one fixed pattern used) are embedded over
  `List Char`.
-/

/-- Constant `HYSTERESIS = 0.05` metres (line 24 of the source). -/
def HYSTERESIS : ℚ := 0.05

/-- Embeds `normalize_name`: `" ".join((s or "").strip().split())` — split on runs of
whitespace, drop empty pieces, re-join with single spaces.  Embedded over the
character list of the string. -/
def normWords : List Char → List Char → List (List Char)
  | [], acc => if acc = [] then [] else [acc.reverse]
  | c :: cs, acc =>
      if c.isWhitespace then
        if acc = [] then normWords cs [] else acc.reverse :: normWords cs []
      else normWords cs (c :: acc)

def joinSpace : List (List Char) → List Char
  | [] => []
  | [w] => w
  | w :: ws => w ++ ' ' :: joinSpace ws

def normalize_name (s : String) : String :=
  String.mk (joinSpace (normWords s.data []))

/-- Table `THRESHOLDS_BY_NAME` (lines 28–47): per-station ordered triple of
threshold levels in metres. -/
def THRESHOLDS_BY_NAME : List (String × List ℚ) :=
  [("AZUD DE PAREDONES (MA)", [3.0, 4.0, 5.0]),
   ("BARCA DE LA FLORIDA (CA)", [2.0, 3.0, 4.0]),
   ("GUADALETE-JEREZ DE LA FRONTERA (CA)", [4.0, 5.0, 6.0]),
   ("JUNTA DE LOS RÍOS (CA)", [3.0, 4.0, 5.0]),
   ("PUENTE DE CUADRO OJOS-UBRIQUE (CA)", [1.0, 2.0, 3.0]),
   ("RIO GUADALHORCE (ALJAIMA) (MA)", [1.0, 1.5, 2.0]),
   ("RIO GUADALTEBA (AFORO TEBA) (MA)", [1.5, 2.0, 2.5]),
   ("RIO ALAMO (BENALUP-CASAS V.) (CA)", [4.5, 5.5, 6.5]),
   ("RIO BENAMARGOSA (S. NEGRO) (MA)", [1.7, 2.3, 2.8]),
   ("RIO CAMPANILLAS (LOS LLANES) (MA)", [1.0, 2.0, 3.2]),
   ("RIO GENAL (JUBRIQUE) (MA)", [1.0, 1.6, 2.1]),
   ("RIO GUADALHORCE (ARCHIDONA) (MA)", [2.0, 3.0, 5.0]),
   ("RIO GUADALHORCE (BOBADILLA) (MA)", [2.5, 3.0, 4.0]),
   ("RIO GUADALHORCE (CARTAMA) (MA)", [2.5, 3.5, 4.5]),
   ("RIO GUADIARO (TR.MAJACEITE) (MA)", [1.4, 1.7, 2.0]),
   ("RIO GUADIARO (S PABLO BUCEITE) (CA)", [3.0, 4.0, 5.0]),
   ("RIO HOZGARGANTA (JIMENA) (CA)", [2.0, 3.0, 4.0]),
   ("RIO TURON (ARDALES) (MA)", [1.5, 2.0, 2.5])]

/-- Normalized table: `THRESHOLDS_BY_NAME_NORM` maps `normalize_name` over the
keys (line 56). -/
def THRESHOLDS_BY_NAME_NORM : List (String × List ℚ) :=
  THRESHOLDS_BY_NAME.map (fun p => (normalize_name p.1, p.2))

/-- Embeds `compute_reached_level` (lines 165–174): level reached on the way up, no
hysteresis.  The Python code indexes `thresholds[0..2]`; every call site passes
a length-3 list from the threshold table, so out-of-range indexing (a Python
`IndexError`) is unreachable and `getD _ 0` is only ever used in range. -/
def compute_reached_level (nivel : ℚ) (thresholds : List ℚ) : ℕ :=
  let reached : ℕ := 0
  let reached := if thresholds.getD 0 0 ≤ nivel then 1 else reached
  let reached := if thresholds.getD 1 0 ≤ nivel then 2 else reached
  let reached := if thresholds.getD 2 0 ≤ nivel then 3 else reached
  reached

/-- Embeds `compute_rearm_level` (lines 176–192): downward rearm with hysteresis,
each drop evaluated against the possibly-just-lowered level. -/
def compute_rearm_level (nivel : ℚ) (thresholds : List ℚ) (prev_level : ℕ) : ℕ :=
  let lvl := prev_level
  let lvl := if 3 ≤ lvl ∧ nivel < thresholds.getD 2 0 - HYSTERESIS then 2 else lvl
  let lvl := if 2 ≤ lvl ∧ nivel < thresholds.getD 1 0 - HYSTERESIS then 1 else lvl
  let lvl := if 1 ≤ lvl ∧ nivel < thresholds.getD 0 0 - HYSTERESIS then 0 else lvl
  lvl

/-- One alert item produced by the per-station loop in `main`
(lines 229–247).  We keep the fields an event is built from; the rendered
`title`/`description` strings are derived from these. -/
structure AlertEvent where
  station_id : String
  name : String
  level : ℕ
  nivel : ℚ
  threshold : ℚ
  deriving Repr, DecidableEq

/-- The per-station evaluation of `main` (lines 219–249) for a non-absent
reading: rearm pass, then raise pass, returning the station's next stored
level together with the emitted events.  `range(prev_level + 1,
reached_level + 1)` is `List.range' (prev + 1) (reached - prev)`. -/
def evaluate (station_id name : String) (nivel : ℚ) (thresholds : List ℚ)
    (prev_level : ℕ) : ℕ × List AlertEvent :=
  let prev := compute_rearm_level nivel thresholds prev_level
  let reached := compute_reached_level nivel thresholds
  if prev < reached then
    (reached,
      (List.range' (prev + 1) (reached - prev)).map (fun lvl =>
        { station_id := station_id, name := name, level := lvl, nivel := nivel,
          threshold := thresholds.getD (lvl - 1) 0 }))
  else (prev, [])

/-- Lines 210–211 of `main`: an absent reading (`nivel is None`) skips the
station entirely — state unchanged, no events. -/
def evaluateReading (station_id name : String) (nivel : Option ℚ)
    (thresholds : List ℚ) (prev_level : ℕ) : ℕ × List AlertEvent :=
  match nivel with
  | none => (prev_level, [])
  | some v => evaluate station_id name v thresholds prev_level

/-- One parsed table row from `fetch_rows` (lines 130–135): station id, name
(already passed through `normalize_name` at parse time, line 122), and the
parsed level (`None` when the cell is not numeric). -/
structure Row where
  id : String
  name : String
  nivel : Option ℚ
  deriving Repr, DecidableEq

/-- Python dict assignment `m[k] = v`: overwrite the existing entry, or append
a new one.  The state mapping `last_level_alerted` is such a dict. -/
def setA (m : List (String × ℕ)) (k : String) (v : ℕ) : List (String × ℕ) :=
  match m with
  | [] => [(k, v)]
  | (k2, v2) :: rest => if k2 = k then (k, v) :: rest else (k2, v2) :: setA rest k v

/-- The body of the per-row loop of `main` (lines 205–249), acting on the
`last_level_alerted` mapping and returning the events appended to `alerts`:
skip absent readings (line 210), skip stations with no (or a falsy/empty)
threshold entry (lines 213–215), rearm (writing the lowered level back,
lines 220–223), then raise and emit (lines 226–249). -/
def processRow (last : List (String × ℕ)) (r : Row) :
    List (String × ℕ) × List AlertEvent :=
  match r.nivel with
  | none => (last, [])
  | some nivel =>
    match THRESHOLDS_BY_NAME_NORM.lookup r.name with
    | none => (last, [])
    | some thresholds =>
      if thresholds.isEmpty then (last, [])
      else
        let prev0 := (last.lookup r.id).getD 0
        let rearmed := compute_rearm_level nivel thresholds prev0
        let last1 := if rearmed ≠ prev0 then setA last r.id rearmed else last
        let reached := compute_reached_level nivel thresholds
        if rearmed < reached then
          (setA last1 r.id reached,
            (List.range' (rearmed + 1) (reached - rearmed)).map (fun lvl =>
              { station_id := r.id, name := r.name, level := lvl, nivel := nivel,
                threshold := thresholds.getD (lvl - 1) 0 }))
        else (last1, [])

/-- The whole per-run loop of `main` over `rows` (lines 205–249): final state
mapping and the concatenated `alerts` list, in emission order. -/
def runRows (last : List (String × ℕ)) (rows : List Row) :
    List (String × ℕ) × List AlertEvent :=
  rows.foldl (fun acc r =>
    let out := processRow acc.1 r
    (out.1, acc.2 ++ out.2)) (last, [])

/-! ### Persisted state (`load_state` / `save_state`, lines 81–99)

The Python `json` module is modelled at the JSON-value level: `json.dumps`
followed by `json.loads` is the identity on the values this program writes, so
the state file is an `Option Json` (`none` = `STATE_FILE` does not exist). -/

/-- A JSON value, restricted to the constructors the state file uses. -/
inductive Json where
  | str : String → Json
  | num : Int → Json
  | obj : List (String × Json) → Json

/-- Embeds `save_state` (lines 98–99): writing the state makes the file hold exactly
that value (`json.dumps`/`json.loads` round-trip the value unchanged). -/
def save_state (state : Json) : Option Json := some state

/-- Embeds `load_state` (lines 81–96): parse the file if it exists, else (or on a
parse failure, not representable at the value level) return
`{"last_level_alerted": {}}`. -/
def load_state (file : Option Json) : Json :=
  match file with
  | some j => j
  | none => Json.obj [("last_level_alerted", Json.obj [])]

/-- The state value `{"last_level_alerted": { id: level, ... }}` the program
persists for a given mapping (line 251 + `save_state`). -/
def encodeState (m : List (String × ℕ)) : Json :=
  Json.obj [("last_level_alerted", Json.obj (m.map (fun p => (p.1, Json.num p.2))))]

def jsonFields : Json → List (String × Json)
  | Json.obj l => l
  | _ => []

/-- Reading the mapping back out of a loaded state value, as `main` does:
`state.get("last_level_alerted", {})` (line 196) and `int(...)` per entry
(line 217). -/
def decodeMapping (j : Json) : List (String × ℕ) :=
  (jsonFields ((jsonFields j).lookup "last_level_alerted" |>.getD (Json.obj []))).filterMap
    (fun p => match p.2 with
      | Json.num n => some (p.1, n.toNat)
      | _ => none)

/-! ### Feed document (`build_rss`, lines 139–163)

`build_rss` accumulates a list `parts` of lines and joins them; we model the
`parts` list (the final `"\n".join` is presentation).  `pub_date` models
`format_datetime(datetime.now(timezone.utc))`. -/

def URL : String := "https://www.redhidrosurmedioambiente.es/saih/resumen/rios"

/-- One feed item as handed to `build_rss` (built at lines 241–247). -/
structure FeedItem where
  title : String
  link : String
  guid : String
  description : String
  pubDate : String
  deriving Repr, DecidableEq

/-- The seven lines appended for one item (lines 152–159). -/
def itemLines (it : FeedItem) : List String :=
  ["<item>",
   "<title><![CDATA[" ++ it.title ++ "]]></title>",
   "<link>" ++ it.link ++ "</link>",
   "<guid isPermaLink='false'>" ++ it.guid ++ "</guid>",
   "<pubDate>" ++ it.pubDate ++ "</pubDate>",
   "<description><![CDATA[" ++ it.description ++ "]]></description>",
   "</item>"]

/-- The seven channel-header lines appended at lines 144–150. -/
def channelHeader (pub_date : String) : List String :=
  ["<?xml version=\"1.0\" encoding=\"UTF-8\"?>",
   "<rss version=\"2.0\">",
   "<channel>",
   "<title>AVISOS CRECIDAS SAIH</title>",
   "<link>" ++ URL ++ "</link>",
   "<description>Avisos automáticos de crecidas (SAIH Hidrosur) cuando el NIVEL MEDIO cruza niveles 1/2/3 en estaciones (MA/CA).</description>",
   "<lastBuildDate>" ++ pub_date ++ "</lastBuildDate>"]

/-- The closing tags appended at lines 161–162. -/
def channelFooter : List String := ["</channel>", "</rss>"]

/-- Embeds `build_rss` (lines 139–163): channel header, the first 50 items
(`items[:50]`), and the closing tags. -/
def build_rss (pub_date : String) (items : List FeedItem) : List String :=
  (channelHeader pub_date ++ (items.take 50).flatMap itemLines) ++ channelFooter

/-! ### `parse_float_es` (lines 58–79)

`value.strip().lower()`, the sentinel check, `re.search` for the fixed
pattern `[-+]?\d+(?:[.,]\d+)?`, then
`m.group(0).replace(".", "").replace(",", ".")` and `float(...)`.  String
operations are embedded over `List Char`; `lower` is modelled on ASCII
letters (the inputs of interest contain no cased non-ASCII letters). -/

/-- Python `str.strip()`: drop whitespace from both ends. -/
def stripStr (s : String) : String :=
  String.mk (((s.data.dropWhile Char.isWhitespace).reverse.dropWhile
    Char.isWhitespace).reverse)

/-- Python `str.lower()` on ASCII letters. -/
def toLowerStr (s : String) : String :=
  String.mk (s.data.map Char.toLower)

/-- The sentinel spellings treated as "no data" (line 67). -/
def sentinelStrings : List String := ["n/d", "nd", "-", "—"]

/-- Matching the regex `[-+]?\d+(?:[.,]\d+)?` anchored at the start of `cs`,
without a leading sign: greedy `\d+`, then the optional group `[.,]\d+`
(taken only when a separator is directly followed by at least one digit,
exactly as the regex engine would). Returns the matched characters. -/
def matchNumCore (cs : List Char) : Option (List Char) :=
  let d1 := cs.takeWhile Char.isDigit
  if d1 = [] then none
  else
    match cs.drop d1.length with
    | c :: rest =>
      if c = '.' ∨ c = ',' then
        let d2 := rest.takeWhile Char.isDigit
        if d2 = [] then some d1 else some (d1 ++ c :: d2)
      else some d1
    | [] => some d1

/-- The regex match anchored at `cs`, now with the optional sign: a sign is
consumed only when digits follow it (otherwise the regex backtracks to the
sign-less alternative, which then fails on the sign character itself). -/
def matchNumFrom (cs : List Char) : Option (List Char) :=
  match cs with
  | [] => none
  | c :: rest =>
    if c = '-' ∨ c = '+' then
      match matchNumCore rest with
      | some m => some (c :: m)
      | none => none
    else matchNumCore cs

/-- Python `re.search`: the match at the leftmost position where one exists. -/
def searchNum : List Char → Option (List Char)
  | [] => none
  | c :: rest =>
    match matchNumFrom (c :: rest) with
    | some m => some m
    | none => searchNum rest

def digitsToNat (cs : List Char) : ℕ :=
  cs.foldl (fun n c => 10 * n + (c.toNat - '0'.toNat)) 0

/-- Python `float()` on the strings this program feeds it, i.e. the grammar
`[+-]? digits [. digits]?`; any other string is `none`, standing for the
`ValueError` branch (line 78). -/
def floatOfChars (cs : List Char) : Option ℚ :=
  let sign : ℚ := if cs.head? = some '-' then -1 else 1
  let rest := if cs.head? = some '-' ∨ cs.head? = some '+' then cs.tail else cs
  let d1 := rest.takeWhile Char.isDigit
  if d1 = [] then none
  else
    match rest.drop d1.length with
    | [] => some (sign * digitsToNat d1)
    | '.' :: frac =>
      if frac ≠ [] ∧ frac.all Char.isDigit then
        some (sign * ((digitsToNat d1 : ℚ) + (digitsToNat frac : ℚ) / 10 ^ frac.length))
      else none
    | _ => none

/-- Lines 64–75 of `parse_float_es`: the character-level stage — empty check,
`strip().lower()`, sentinel check, `re.search`, and
`m.group(0).replace(".", "").replace(",", ".")`.  Returns the string handed
to `float(...)`, or `none` when one of the early returns fires. -/
def matched_num (value : String) : Option (List Char) :=
  if value = "" then none
  else
    let v := toLowerStr (stripStr value)
    if v ∈ sentinelStrings then none
    else
      match searchNum v.data with
      | none => none
      | some m => some ((m.filter (fun c => ¬ c = '.')).map
          (fun c => if c = ',' then '.' else c))

/-- Embeds `parse_float_es` (lines 58–79).  The final `try: float(num) except
ValueError: return None` appears as `floatOfChars` returning an `Option`; the
theorem for the parsing claim shows the `none` of that last step is
unreachable. -/
def parse_float_es (value : String) : Option ℚ :=
  match matched_num value with
  | none => none
  | some num => floatOfChars num

/-! ### Crossing-engine lemmas -/

lemma getD0 (a b c d : ℚ) : [a, b, c].getD 0 d = a := rfl

lemma getD1 (a b c d : ℚ) : [a, b, c].getD 1 d = b := rfl

lemma getD2 (a b c d : ℚ) : [a, b, c].getD 2 d = c := rfl

/-- A level the rearm pass cannot lower given the reading. -/
def safeLevel (t1 t2 t3 nivel : ℚ) (l : ℕ) : Prop :=
  l = 0 ∨ (l = 1 ∧ ¬ nivel < t1 - HYSTERESIS) ∨ (l = 2 ∧ ¬ nivel < t2 - HYSTERESIS) ∨
    (l = 3 ∧ ¬ nivel < t3 - HYSTERESIS)

lemma rearm_le (t1 t2 t3 nivel : ℚ) (p : ℕ) (hp : p ≤ 3) :
    compute_rearm_level nivel [t1, t2, t3] p ≤ 3 := by
  by_cases c3 : nivel < t3 - HYSTERESIS <;>
  by_cases c2 : nivel < t2 - HYSTERESIS <;>
  by_cases c1 : nivel < t1 - HYSTERESIS <;>
    simp only [compute_rearm_level, getD0, getD1, getD2, c1, c2, c3, and_true,
      and_false, if_true, if_false, ite_true, ite_false] <;> (try split_ifs) <;> omega

lemma rearm_safe (t1 t2 t3 nivel : ℚ) (p : ℕ) (hp : p ≤ 3) :
    safeLevel t1 t2 t3 nivel (compute_rearm_level nivel [t1, t2, t3] p) := by
  by_cases c3 : nivel < t3 - HYSTERESIS <;>
  by_cases c2 : nivel < t2 - HYSTERESIS <;>
  by_cases c1 : nivel < t1 - HYSTERESIS <;>
    simp only [safeLevel, compute_rearm_level, getD0, getD1, getD2, c1, c2, c3,
      and_true, and_false, if_true, if_false, ite_true, ite_false, not_true,
      not_false_iff] <;> (try split_ifs) <;> first | omega | tauto

lemma rearm_fix (t1 t2 t3 nivel : ℚ) (h12 : t1 ≤ t2) (h23 : t2 ≤ t3) (l : ℕ)
    (hs : safeLevel t1 t2 t3 nivel l) :
    compute_rearm_level nivel [t1, t2, t3] l = l := by
  rcases hs with h | ⟨h, hq⟩ | ⟨h, hq⟩ | ⟨h, hq⟩ <;> subst h <;>
    simp only [compute_rearm_level, getD0, getD1, getD2] <;>
    split_ifs with a b c <;> first
      | rfl
      | omega
      | (exfalso; first
          | exact hq (by linarith [a.2])
          | exact hq (by linarith [b.2])
          | exact hq (by linarith [c.2])
          | exact hq (by linarith))

lemma reached_le (t1 t2 t3 nivel : ℚ) :
    compute_reached_level nivel [t1, t2, t3] ≤ 3 := by
  simp only [compute_reached_level, getD0, getD1, getD2]
  split_ifs <;> omega

lemma reached_cases (t1 t2 t3 nivel : ℚ) :
    compute_reached_level nivel [t1, t2, t3] = 0 ∨
      (compute_reached_level nivel [t1, t2, t3] = 1 ∧ t1 ≤ nivel) ∨
      (compute_reached_level nivel [t1, t2, t3] = 2 ∧ t2 ≤ nivel) ∨
      (compute_reached_level nivel [t1, t2, t3] = 3 ∧ t3 ≤ nivel) := by
  by_cases b3 : t3 ≤ nivel <;> by_cases b2 : t2 ≤ nivel <;> by_cases b1 : t1 ≤ nivel <;>
    simp only [compute_reached_level, getD0, getD1, getD2, b1, b2, b3,
      if_true, if_false, ite_true, ite_false, and_true, and_false, true_and,
      false_and] <;> first | omega | tauto

lemma reached_safe (t1 t2 t3 nivel : ℚ) :
    safeLevel t1 t2 t3 nivel (compute_reached_level nivel [t1, t2, t3]) := by
  have hH : (0 : ℚ) < HYSTERESIS := by norm_num [HYSTERESIS]
  rcases reached_cases t1 t2 t3 nivel with h | ⟨h, hq⟩ | ⟨h, hq⟩ | ⟨h, hq⟩
  · exact Or.inl h
  · exact Or.inr (Or.inl ⟨h, by linarith⟩)
  · exact Or.inr (Or.inr (Or.inl ⟨h, by linarith⟩))
  · exact Or.inr (Or.inr (Or.inr ⟨h, by linarith⟩))

lemma evaluate_fst (sid nm : String) (nivel : ℚ) (ts : List ℚ) (p : ℕ) :
    (evaluate sid nm nivel ts p).1 =
      if compute_rearm_level nivel ts p < compute_reached_level nivel ts then
        compute_reached_level nivel ts
      else compute_rearm_level nivel ts p := by
  unfold evaluate
  rw [apply_ite Prod.fst]

lemma evaluate_no_raise (sid nm : String) (nivel : ℚ) (ts : List ℚ) (p : ℕ)
    (h : ¬ compute_rearm_level nivel ts p < compute_reached_level nivel ts) :
    evaluate sid nm nivel ts p = (compute_rearm_level nivel ts p, []) := by
  unfold evaluate
  rw [if_neg h]

/-- Core of the idempotence claim: re-evaluating the same reading from the
level the first evaluation produced changes nothing and emits nothing. -/
lemma evaluate_idem_core (sid nm : String) (t1 t2 t3 nivel : ℚ) (prev : ℕ)
    (h12 : t1 ≤ t2) (h23 : t2 ≤ t3) (hp : prev ≤ 3) :
    evaluate sid nm nivel [t1, t2, t3] ((evaluate sid nm nivel [t1, t2, t3] prev).1) =
      ((evaluate sid nm nivel [t1, t2, t3] prev).1, []) := by
  have hsafe : safeLevel t1 t2 t3 nivel ((evaluate sid nm nivel [t1, t2, t3] prev).1) := by
    rw [evaluate_fst]
    split_ifs
    · exact reached_safe t1 t2 t3 nivel
    · exact rearm_safe t1 t2 t3 nivel prev hp
  have hcle : compute_reached_level nivel [t1, t2, t3] ≤
      (evaluate sid nm nivel [t1, t2, t3] prev).1 := by
    rw [evaluate_fst]
    split_ifs with h
    · exact le_refl _
    · omega
  have hfix := rearm_fix t1 t2 t3 nivel h12 h23 _ hsafe
  have hno : ¬ compute_rearm_level nivel [t1, t2, t3]
      ((evaluate sid nm nivel [t1, t2, t3] prev).1) <
      compute_reached_level nivel [t1, t2, t3] := by
    rw [hfix]
    exact not_lt.mpr hcle
  rw [evaluate_no_raise sid nm nivel [t1, t2, t3] _ hno, hfix]

lemma rearm_of_ge (t1 t2 t3 nivel : ℚ) (h12 : t1 ≤ t2) (h23 : t2 ≤ t3)
    (h3 : t3 ≤ nivel) (p : ℕ) :
    compute_rearm_level nivel [t1, t2, t3] p = p := by
  have hH : (0 : ℚ) < HYSTERESIS := by norm_num [HYSTERESIS]
  have c3 : ¬ nivel < t3 - HYSTERESIS := by linarith
  have c2 : ¬ nivel < t2 - HYSTERESIS := by linarith
  have c1 : ¬ nivel < t1 - HYSTERESIS := by linarith
  simp only [compute_rearm_level, getD0, getD1, getD2, c1, c2, c3, and_false,
    if_false, ite_false]

lemma reached_of_ge (t1 t2 t3 nivel : ℚ) (h3 : t3 ≤ nivel) :
    compute_reached_level nivel [t1, t2, t3] = 3 := by
  simp only [compute_reached_level, getD0, getD1, getD2, h3, if_true, ite_true]

/-- Core of the raise-pass claim: a reading at or above the top threshold
jumps to level 3 and emits one event per newly reached level, ascending, each
carrying its own threshold. -/
lemma evaluate_geT3 (sid nm : String) (t1 t2 t3 nivel : ℚ) (prev : ℕ)
    (h12 : t1 ≤ t2) (h23 : t2 ≤ t3) (h3 : t3 ≤ nivel) (hp : prev ≤ 3) :
    evaluate sid nm nivel [t1, t2, t3] prev =
      (3, (List.range' (prev + 1) (3 - prev)).map (fun lvl =>
        { station_id := sid, name := nm, level := lvl, nivel := nivel,
          threshold := [t1, t2, t3].getD (lvl - 1) 0 })) := by
  simp only [evaluate, rearm_of_ge t1 t2 t3 nivel h12 h23 h3,
    reached_of_ge t1 t2 t3 nivel h3]
  by_cases hlt : prev < 3
  · rw [if_pos hlt]
  · have : prev = 3 := by omega
    subst this
    rw [if_neg hlt]
    simp [List.range']

lemma table_norm_eq : THRESHOLDS_BY_NAME_NORM = THRESHOLDS_BY_NAME := rfl

/-- Every threshold entry is a length-3 ascending list. -/
lemma table_shape :
    ∀ p ∈ THRESHOLDS_BY_NAME_NORM, ∃ a b c : ℚ, p.2 = [a, b, c] ∧ a ≤ b ∧ b ≤ c := by
  intro p hp
  rw [table_norm_eq] at hp
  fin_cases hp <;> exact ⟨_, _, _, rfl, by norm_num, by norm_num⟩

/-! ### Claim theorems -/

/-- C1: for every station with a threshold entry `(T1, T2, T3)` and every
non-absent reading `≥ T3`, from any `prev_level ≤ 3` the evaluation sets
`next_level = 3` and emits exactly one event per integer level strictly
greater than `prev_level` up to 3, in ascending order, each carrying the
threshold value of its own level. -/
theorem raise_pass_correct (name : String) (ts : List ℚ)
    (hmem : (name, ts) ∈ THRESHOLDS_BY_NAME_NORM) (sid : String) (nivel : ℚ)
    (prev : ℕ) (hp : prev ≤ 3) (h3 : ts.getD 2 0 ≤ nivel) :
    evaluate sid name nivel ts prev =
      (3, (List.range' (prev + 1) (3 - prev)).map (fun lvl =>
        { station_id := sid, name := name, level := lvl, nivel := nivel,
          threshold := ts.getD (lvl - 1) 0 })) := by
  obtain ⟨a, b, c, hts, hab, hbc⟩ := table_shape (name, ts) hmem
  simp only at hts
  subst hts
  rw [getD2] at h3
  exact evaluate_geT3 sid name a b c nivel prev hab hbc h3 hp

/-- Witness for C1 at the first table entry, reading 6, `prev_level = 1`. -/
theorem raise_pass_correct_witness :
    ("AZUD DE PAREDONES (MA)", [(3.0 : ℚ), 4.0, 5.0]) ∈ THRESHOLDS_BY_NAME_NORM ∧
    (1 : ℕ) ≤ 3 ∧ ([(3.0 : ℚ), 4.0, 5.0].getD 2 0 ≤ 6) ∧
    evaluate "e1" "AZUD DE PAREDONES (MA)" 6 [3.0, 4.0, 5.0] 1 =
      (3, [⟨"e1", "AZUD DE PAREDONES (MA)", 2, 6, 4.0⟩,
           ⟨"e1", "AZUD DE PAREDONES (MA)", 3, 6, 5.0⟩]) := by
  have hmem : ("AZUD DE PAREDONES (MA)", [(3.0 : ℚ), 4.0, 5.0]) ∈
      THRESHOLDS_BY_NAME_NORM := by
    rw [table_norm_eq]
    exact List.mem_cons_self _ _
  refine ⟨hmem, by omega, by norm_num [getD2], ?_⟩
  rw [raise_pass_correct _ _ hmem "e1" 6 1 (by omega) (by norm_num [getD2])]
  norm_num [List.range', getD1, getD2]

/-- C2: with thresholds `(1, 2, 3)`, from `prev_level = 3` a reading of `0.5`
cascades the rearm through 2, 1, 0 silently in a single call, and a second
evaluation from `prev_level = 0` with reading `2.5` yields `next_level = 2`
with exactly two events, for levels 1 and 2. -/
theorem cascade_rearm_then_reraise : ∀ sid nm : String,
    evaluate sid nm 0.5 [1, 2, 3] 3 = (0, []) ∧
    evaluate sid nm 2.5 [1, 2, 3] 0 =
      (2, [⟨sid, nm, 1, 2.5, 1⟩, ⟨sid, nm, 2, 2.5, 2⟩]) := by
  intro sid nm
  constructor <;>
    norm_num [evaluate, compute_rearm_level, compute_reached_level, HYSTERESIS,
      List.range']

/-- C3, counterexample: with `prev_level = 3`, thresholds `(1, 2, 3)` and
hysteresis `0.05`, a reading of `2.96` does NOT rearm to level 2 (it is not
below `3 − 0.05 = 2.95`): `next_level` stays 3. -/
theorem hysteresis_boundary_cx :
    ¬ (evaluate "s" "n" 2.96 [1, 2, 3] 3).1 = 2 := by
  norm_num [evaluate, compute_rearm_level, compute_reached_level, HYSTERESIS]

/-- C3, amended: with `prev_level = 3`, thresholds `(1, 2, 3)` and hysteresis
`0.05`, a reading of `2.94` (below `3 − 0.05 = 2.95`) yields `next_level = 2`,
while any reading of `2.95` or higher (in particular `2.96` and `2.97`)
leaves `next_level = 3`. -/
theorem hysteresis_boundary_amended : ∀ sid nm : String,
    evaluate sid nm 2.94 [1, 2, 3] 3 = (2, []) ∧
    ∀ nivel : ℚ, (2.95 : ℚ) ≤ nivel → (evaluate sid nm nivel [1, 2, 3] 3).1 = 3 := by
  intro sid nm
  constructor
  · norm_num [evaluate, compute_rearm_level, compute_reached_level, HYSTERESIS,
      List.range']
  · intro nivel hge
    have c3 : (3 : ℚ) - HYSTERESIS ≤ nivel := by
      rw [show (3 : ℚ) - HYSTERESIS = 2.95 from by norm_num [HYSTERESIS]]
      exact hge
    have key : compute_rearm_level nivel [1, 2, 3] 3 = 3 :=
      rearm_fix 1 2 3 nivel (by norm_num) (by norm_num) 3
        (Or.inr (Or.inr (Or.inr ⟨rfl, not_lt.mpr c3⟩)))
    have hno : ¬ compute_rearm_level nivel [1, 2, 3] 3 <
        compute_reached_level nivel [1, 2, 3] := by
      rw [key]
      exact not_lt.mpr (reached_le 1 2 3 nivel)
    rw [evaluate_no_raise sid nm nivel [1, 2, 3] 3 hno, key]

/-- Witness for the amended C3 at readings `2.94` and `2.97`. -/
theorem hysteresis_boundary_amended_witness :
    evaluate "s" "n" 2.94 [1, 2, 3] 3 = (2, []) ∧
    (evaluate "s" "n" 2.97 [1, 2, 3] 3).1 = 3 :=
  ⟨(hysteresis_boundary_amended "s" "n").1,
   (hysteresis_boundary_amended "s" "n").2 2.97 (by norm_num)⟩

/-- C4: an absent reading is a no-op — for every station and every stored
level `L`, evaluation returns `(L, [])`: no rearm, no event. -/
theorem absent_reading_noop : ∀ (sid nm : String) (ts : List ℚ) (L : ℕ),
    evaluateReading sid nm none ts L = (L, []) :=
  fun _ _ _ _ => rfl

/-- C6: evaluation is idempotent — for every station with a threshold entry,
every non-absent reading and every `prev_level ≤ 3`, if the first evaluation
yields `next_level = L1`, a second evaluation of the same reading from `L1`
yields `L1` again and emits no events. -/
theorem evaluate_idempotent (name : String) (ts : List ℚ)
    (hmem : (name, ts) ∈ THRESHOLDS_BY_NAME_NORM) (sid : String) (nivel : ℚ)
    (prev L1 : ℕ) (evs : List AlertEvent) (hp : prev ≤ 3)
    (h1 : evaluate sid name nivel ts prev = (L1, evs)) :
    evaluate sid name nivel ts L1 = (L1, []) := by
  obtain ⟨a, b, c, hts, hab, hbc⟩ := table_shape (name, ts) hmem
  simp only at hts
  subst hts
  have hL : (evaluate sid name nivel [a, b, c] prev).1 = L1 := by rw [h1]
  subst hL
  exact evaluate_idem_core sid name a b c nivel prev hab hbc hp

/-- Witness for C6 at the first table entry: reading 3.5 from level 0 raises
to level 1 with one event; re-evaluating from level 1 is silent. -/
theorem evaluate_idempotent_witness :
    ("AZUD DE PAREDONES (MA)", [(3.0 : ℚ), 4.0, 5.0]) ∈ THRESHOLDS_BY_NAME_NORM ∧
    evaluate "e1" "AZUD DE PAREDONES (MA)" 3.5 [3.0, 4.0, 5.0] 0 =
      (1, [⟨"e1", "AZUD DE PAREDONES (MA)", 1, 3.5, 3.0⟩]) ∧
    evaluate "e1" "AZUD DE PAREDONES (MA)" 3.5 [3.0, 4.0, 5.0] 1 = (1, []) := by
  have hmem : ("AZUD DE PAREDONES (MA)", [(3.0 : ℚ), 4.0, 5.0]) ∈
      THRESHOLDS_BY_NAME_NORM := by
    rw [table_norm_eq]
    exact List.mem_cons_self _ _
  have h1 : evaluate "e1" "AZUD DE PAREDONES (MA)" 3.5 [3.0, 4.0, 5.0] 0 =
      (1, [⟨"e1", "AZUD DE PAREDONES (MA)", 1, 3.5, 3.0⟩]) := by
    norm_num [evaluate, compute_rearm_level, compute_reached_level, HYSTERESIS,
      List.range']
  exact ⟨hmem, h1,
    evaluate_idempotent _ _ hmem "e1" 3.5 0 1 _ (by omega) h1⟩

/-! ### Run-level frame lemmas (unconfigured stations) -/

lemma lookup_setA_ne (m : List (String × ℕ)) (k s : String) (v : ℕ) (h : ¬ k = s) :
    (setA m k v).lookup s = m.lookup s := by
  have hks : (s == k) = false := by
    rw [beq_eq_false_iff_ne]
    exact fun hh => h hh.symm
  induction m with
  | nil => simp [setA, List.lookup, hks]
  | cons p rest ih =>
    obtain ⟨k2, v2⟩ := p
    by_cases hk : k2 = k
    · subst hk
      simp [setA, List.lookup, hks]
    · simp only [setA, if_neg hk]
      cases hbe : s == k2 <;> simp [List.lookup, hbe, ih]

lemma processRow_unconfigured (last : List (String × ℕ)) (r : Row)
    (h : THRESHOLDS_BY_NAME_NORM.lookup r.name = none) :
    processRow last r = (last, []) := by
  cases hn : r.nivel with
  | none => simp [processRow, hn]
  | some v => simp [processRow, hn, h]

lemma processRow_state_other (last : List (String × ℕ)) (r : Row) (s : String)
    (h : ¬ r.id = s) :
    (processRow last r).1.lookup s = last.lookup s := by
  cases hn : r.nivel with
  | none => simp [processRow, hn]
  | some v =>
    cases hl : THRESHOLDS_BY_NAME_NORM.lookup r.name with
    | none => simp [processRow, hn, hl]
    | some ts =>
      simp only [processRow, hn, hl]
      split_ifs <;> simp [lookup_setA_ne, h]

lemma processRow_events_id (last : List (String × ℕ)) (r : Row) :
    ∀ e ∈ (processRow last r).2, e.station_id = r.id := by
  cases hn : r.nivel with
  | none => simp [processRow, hn]
  | some v =>
    cases hl : THRESHOLDS_BY_NAME_NORM.lookup r.name with
    | none => simp [processRow, hn, hl]
    | some ts =>
      simp only [processRow, hn, hl]
      split_ifs <;> intro e he <;> simp at he <;>
        (obtain ⟨lvl, -, rfl⟩ := he; rfl)

lemma runRows_aux (rows : List Row) (st : List (String × ℕ)) (evs : List AlertEvent) :
    rows.foldl (fun acc r =>
        let out := processRow acc.1 r
        (out.1, acc.2 ++ out.2)) (st, evs) =
      ((runRows st rows).1, evs ++ (runRows st rows).2) := by
  induction rows generalizing st evs with
  | nil => simp [runRows]
  | cons r rows ih =>
    simp only [runRows, List.foldl_cons]
    rw [ih, ih]
    simp

lemma runRows_cons (st : List (String × ℕ)) (r : Row) (rows : List Row) :
    runRows st (r :: rows) =
      ((runRows (processRow st r).1 rows).1,
        (processRow st r).2 ++ (runRows (processRow st r).1 rows).2) := by
  simp only [runRows, List.foldl_cons]
  rw [runRows_aux]
  exact Prod.ext rfl (by simp [runRows])

/-- C7: a station whose (normalized) name has no entry in the threshold table
is invisible — a run emits no event carrying its station id, and its entry in
the alert-state mapping (if any) is exactly as loaded. -/
theorem unconfigured_station_invisible (rows : List Row)
    (last : List (String × ℕ)) (s : String)
    (huncfg : ∀ r ∈ rows, r.id = s → THRESHOLDS_BY_NAME_NORM.lookup r.name = none) :
    (runRows last rows).1.lookup s = last.lookup s ∧
    ∀ e ∈ (runRows last rows).2, ¬ e.station_id = s := by
  induction rows generalizing last with
  | nil => simp [runRows]
  | cons r rows ih =>
    rw [runRows_cons]
    have htail := ih (processRow last r).1
      (fun r2 h2 => huncfg r2 (List.mem_cons_of_mem r h2))
    by_cases hr : r.id = s
    · have hskip : processRow last r = (last, []) :=
        processRow_unconfigured last r (huncfg r (List.mem_cons_self r rows) hr)
      rw [hskip] at htail ⊢
      simpa using htail
    · refine ⟨?_, ?_⟩
      · rw [htail.1, processRow_state_other last r s hr]
      · intro e he
        simp only [List.mem_append] at he
        rcases he with he | he
        · rw [processRow_events_id last r e he]
          exact hr
        · exact htail.2 e he

/-- Witness for C7: one reading for an unmonitored station (name not in the
table), evaluated against a loaded state that already has an entry for it. -/
theorem unconfigured_station_invisible_witness :
    (runRows [("x9", 2)] [{ id := "x9", name := "RIO INVENTADO (XX)", nivel := some 9 }]).1.lookup "x9" =
      ([("x9", 2)] : List (String × ℕ)).lookup "x9" ∧
    ∀ e ∈ (runRows [("x9", 2)]
        [{ id := "x9", name := "RIO INVENTADO (XX)", nivel := some 9 }]).2,
      ¬ e.station_id = "x9" := by
  refine unconfigured_station_invisible _ _ _ ?_
  intro r hr _
  simp only [List.mem_singleton] at hr
  subst hr
  decide

/-! ### Persisted-state round trip -/

lemma decode_encode_inner (m : List (String × ℕ)) :
    (m.map (fun p => (p.1, Json.num (p.2 : ℤ)))).filterMap
      (fun p => match p.2 with
        | Json.num n => some (p.1, n.toNat)
        | _ => none) = m := by
  induction m with
  | nil => rfl
  | cons p rest ih =>
    simp only [List.map_cons, List.filterMap_cons, ih]
    rw [Int.toNat_natCast]

/-- C8: saving any alert-state mapping with levels in `{0,1,2,3}` (entries at
level 0 included) and loading it back yields the identical mapping, and
loading when the state file does not exist yields the empty mapping. -/
theorem state_round_trip (m : List (String × ℕ)) (hlv : ∀ p ∈ m, p.2 ≤ 3) :
    decodeMapping (load_state (save_state (encodeState m))) = m ∧
    decodeMapping (load_state none) = [] := by
  refine ⟨?_, rfl⟩
  show decodeMapping (encodeState m) = m
  simp only [decodeMapping, encodeState, jsonFields, List.lookup, beq_self_eq_true,
    Option.getD_some]
  exact decode_encode_inner m

/-- Witness for C8 at a two-entry mapping containing a level-0 entry. -/
theorem state_round_trip_witness :
    decodeMapping (load_state (save_state (encodeState [("181", 0), ("023", 3)]))) =
      [("181", 0), ("023", 3)] ∧
    decodeMapping (load_state none) = [] :=
  state_round_trip [("181", 0), ("023", 3)] (by decide)

/-! ### Feed-document lemmas -/

lemma string_ne_item (pre mid post : String) (h : 6 < pre.length + post.length) :
    ¬ (pre ++ mid ++ post = "<item>") := by
  intro he
  have hlen := congrArg String.length he
  rw [String.length_append, String.length_append] at hlen
  have h6 : ("<item>" : String).length = 6 := rfl
  rw [h6] at hlen
  omega

lemma count_itemLines (it : FeedItem) : (itemLines it).count "<item>" = 1 := by
  have h1 := string_ne_item "<title><![CDATA[" it.title "]]></title>" (by decide)
  have h2 := string_ne_item "<link>" it.link "</link>" (by decide)
  have h3 := string_ne_item "<guid isPermaLink='false'>" it.guid "</guid>" (by decide)
  have h4 := string_ne_item "<pubDate>" it.pubDate "</pubDate>" (by decide)
  have h5 := string_ne_item "<description><![CDATA[" it.description "]]></description>"
    (by decide)
  have h6 : ¬ ("</item>" : String) = "<item>" := by decide
  simp [itemLines, List.count_cons, beq_iff_eq, h1, h2, h3, h4, h5, h6]

lemma count_flatMap_itemLines (l : List FeedItem) :
    (l.flatMap itemLines).count "<item>" = l.length := by
  induction l with
  | nil => rfl
  | cons it rest ih =>
    simp [List.count_append, count_itemLines, ih]
    omega

lemma count_channelHeader (pd : String) : (channelHeader pd).count "<item>" = 0 := by
  have hbd := string_ne_item "<lastBuildDate>" pd "</lastBuildDate>" (by decide)
  have hx1 : ¬ ("<?xml version=\"1.0\" encoding=\"UTF-8\"?>" : String) = "<item>" := by decide
  have hx2 : ¬ ("<rss version=\"2.0\">" : String) = "<item>" := by decide
  have hx3 : ¬ ("<channel>" : String) = "<item>" := by decide
  have hx4 : ¬ ("<title>AVISOS CRECIDAS SAIH</title>" : String) = "<item>" := by decide
  have hx5 : ¬ ("<link>" ++ URL ++ "</link>" : String) = "<item>" := by decide
  have hx6 : ¬ ("<description>Avisos automáticos de crecidas (SAIH Hidrosur) cuando el NIVEL MEDIO cruza niveles 1/2/3 en estaciones (MA/CA).</description>" : String) = "<item>" := by decide
  simp [channelHeader, List.count_cons, beq_iff_eq, hbd, hx1, hx2, hx3, hx4, hx5, hx6]

lemma count_channelFooter : channelFooter.count "<item>" = 0 := by decide

/-- C9: the feed document contains at most the first 50 event items, in list
order; events beyond the 50th are dropped.  The item count is
`min items.length 50`, the document coincides with the one built from
`items.take 50`, and the rendered lines of exactly those first 50 items occur
contiguously, in order, between the header and the closing tags. -/
theorem feed_caps_at_50 (pd : String) (items : List FeedItem) :
    build_rss pd items = build_rss pd (items.take 50) ∧
    (build_rss pd items).count "<item>" = min items.length 50 ∧
    ∃ pre post, build_rss pd items =
      pre ++ (items.take 50).flatMap itemLines ++ post := by
  refine ⟨?_, ?_, channelHeader pd, channelFooter, rfl⟩
  · simp [build_rss, List.take_take]
  · simp [build_rss, List.count_append, count_channelHeader, count_channelFooter,
      count_flatMap_itemLines, List.length_take, Nat.min_comm]

/-- C5, counterexample: a run with no events produces a feed with zero items —
there is no placeholder item, contradicting "exactly one placeholder". -/
theorem fallback_item_cx :
    (build_rss "Mon, 06 Oct 2025 12:00:00 +0000" []).count "<item>" = 0 := by decide

/-- C5, amended: when the run's event list is empty the feed contains the
channel header and closing tags only — zero items, no placeholder entry (the
feed IS empty of items); no placeholder is ever added for any run. -/
theorem no_fallback_item (pd : String) :
    build_rss pd [] = channelHeader pd ++ channelFooter ∧
    (build_rss pd []).count "<item>" = 0 := by
  constructor
  · simp [build_rss]
  · simp [build_rss, List.count_append, count_channelHeader, count_channelFooter]

/-! ### `parse_float_es` lemmas: the `float()` fallback branch is unreachable -/

/-- Shape of a sign-less regex match: nonempty digits, optionally followed by
one separator and nonempty digits. -/
def numTail (m : List Char) : Prop :=
  ∃ d1 tl, m = d1 ++ tl ∧ d1 ≠ [] ∧ (∀ c ∈ d1, c.isDigit) ∧
    (tl = [] ∨ ∃ c d2, (c = '.' ∨ c = ',') ∧ tl = c :: d2 ∧ d2 ≠ [] ∧
      ∀ c2 ∈ d2, c2.isDigit)

/-- Shape of a full regex match: a `numTail` with an optional leading sign. -/
def numShape (m : List Char) : Prop :=
  numTail m ∨ ∃ c m2, (c = '-' ∨ c = '+') ∧ m = c :: m2 ∧ numTail m2

lemma matchNumCore_shape (cs m : List Char) (h : matchNumCore cs = some m) :
    numTail m := by
  simp only [matchNumCore] at h
  by_cases hd : cs.takeWhile Char.isDigit = []
  · rw [if_pos hd] at h
    exact absurd h (by simp)
  · rw [if_neg hd] at h
    have hdig : ∀ c ∈ cs.takeWhile Char.isDigit, c.isDigit :=
      fun c hc => List.mem_takeWhile_imp hc
    cases hdrop : cs.drop (cs.takeWhile Char.isDigit).length with
    | nil =>
      simp only [hdrop] at h
      obtain rfl := Option.some.inj h
      exact ⟨cs.takeWhile Char.isDigit, [], by simp, hd, hdig, Or.inl rfl⟩
    | cons c rest =>
      simp only [hdrop] at h
      by_cases hc : c = '.' ∨ c = ','
      · rw [if_pos hc] at h
        by_cases h2 : rest.takeWhile Char.isDigit = []
        · rw [if_pos h2] at h
          obtain rfl := Option.some.inj h
          exact ⟨cs.takeWhile Char.isDigit, [], by simp, hd, hdig, Or.inl rfl⟩
        · rw [if_neg h2] at h
          obtain rfl := Option.some.inj h
          exact ⟨cs.takeWhile Char.isDigit, c :: rest.takeWhile Char.isDigit,
            rfl, hd, hdig,
            Or.inr ⟨c, rest.takeWhile Char.isDigit, hc, rfl, h2,
              fun c2 hc2 => List.mem_takeWhile_imp hc2⟩⟩
      · rw [if_neg hc] at h
        obtain rfl := Option.some.inj h
        exact ⟨cs.takeWhile Char.isDigit, [], by simp, hd, hdig, Or.inl rfl⟩

lemma matchNumFrom_shape (cs m : List Char) (h : matchNumFrom cs = some m) :
    numShape m := by
  cases cs with
  | nil => exact absurd h (by simp [matchNumFrom])
  | cons c rest =>
    simp only [matchNumFrom] at h
    by_cases hc : c = '-' ∨ c = '+'
    · rw [if_pos hc] at h
      cases hcore : matchNumCore rest with
      | none => rw [hcore] at h; exact absurd h (by simp)
      | some m2 =>
        rw [hcore] at h
        obtain rfl := Option.some.inj h
        exact Or.inr ⟨c, m2, hc, rfl, matchNumCore_shape rest m2 hcore⟩
    · rw [if_neg hc] at h
      exact Or.inl (matchNumCore_shape (c :: rest) m h)

lemma searchNum_shape (cs m : List Char) (h : searchNum cs = some m) :
    numShape m := by
  induction cs with
  | nil => exact absurd h (by simp [searchNum])
  | cons c rest ih =>
    simp only [searchNum] at h
    cases hf : matchNumFrom (c :: rest) with
    | none => rw [hf] at h; exact ih h
    | some m2 =>
      rw [hf] at h
      obtain rfl := Option.some.inj h
      exact matchNumFrom_shape (c :: rest) m2 hf

lemma digit_ne_dot {c : Char} (h : c.isDigit) : ¬ c = '.' := by
  intro hc
  subst hc
  exact absurd h (by decide)

lemma digit_ne_comma {c : Char} (h : c.isDigit) : ¬ c = ',' := by
  intro hc
  subst hc
  exact absurd h (by decide)

/-- The `replace(".", "").replace(",", ".")` step leaves a digit string
unchanged. -/
lemma transform_digits (d : List Char) (hd : ∀ c ∈ d, c.isDigit) :
    (d.filter (fun c => ¬ c = '.')).map (fun c => if c = ',' then '.' else c) = d := by
  induction d with
  | nil => rfl
  | cons c rest ih =>
    have h1 := digit_ne_dot (hd c (List.mem_cons_self c rest))
    have h2 := digit_ne_comma (hd c (List.mem_cons_self c rest))
    have ih2 := ih (fun c2 hc2 => hd c2 (List.mem_cons_of_mem c hc2))
    simp [List.filter_cons, h1, h2]
    simpa using ih2

lemma takeWhile_all (p : Char → Bool) (d : List Char) (h : ∀ c ∈ d, p c) :
    d.takeWhile p = d := by
  induction d with
  | nil => rfl
  | cons c rest ih =>
    simp [List.takeWhile_cons, h c (List.mem_cons_self c rest),
      ih (fun c2 hc2 => h c2 (List.mem_cons_of_mem c hc2))]

lemma takeWhile_digits_stop (d tl : List Char) (h : ∀ c ∈ d, c.isDigit)
    (hstop : ∀ c, tl.head? = some c → c.isDigit = false) :
    (d ++ tl).takeWhile Char.isDigit = d := by
  induction d with
  | nil =>
    cases tl with
    | nil => rfl
    | cons c r => simp [List.takeWhile_cons, hstop c rfl]
  | cons c rest ih =>
    simp [List.takeWhile_cons, h c (List.mem_cons_self c rest),
      ih (fun c2 hc2 => h c2 (List.mem_cons_of_mem c hc2))]

/-- Python `float()` accepts an optionally signed nonempty digit string. -/
lemma floatOfChars_digits (pre : List Char)
    (hpre : pre = [] ∨ pre = ['-'] ∨ pre = ['+'])
    (d : List Char) (hd : ¬ d = []) (hdig : ∀ c ∈ d, c.isDigit) :
    ∃ q, floatOfChars (pre ++ d) = some q := by
  rcases hpre with rfl | rfl | rfl
  · obtain ⟨c0, d', rfl⟩ : ∃ c0 d', d = c0 :: d' := by
      cases d with
      | nil => exact absurd rfl hd
      | cons a b => exact ⟨a, b, rfl⟩
    have hc0 : c0.isDigit := hdig c0 (List.mem_cons_self c0 d')
    have h1 : ¬ (c0 :: d').head? = some '-' := by
      simp only [List.head?_cons, Option.some.injEq]
      intro h
      rw [h] at hc0
      exact absurd hc0 (by decide)
    have h2 : ¬ (c0 :: d').head? = some '+' := by
      simp only [List.head?_cons, Option.some.injEq]
      intro h
      rw [h] at hc0
      exact absurd hc0 (by decide)
    simp only [floatOfChars, List.nil_append]
    rw [if_neg (not_or.mpr ⟨h1, h2⟩), if_neg h1,
      takeWhile_all Char.isDigit (c0 :: d') hdig, if_neg hd, List.drop_length]
    exact ⟨_, rfl⟩
  · simp only [floatOfChars, List.cons_append, List.nil_append, List.head?_cons,
      List.tail_cons, true_or, if_true, ite_true]
    rw [takeWhile_all Char.isDigit d hdig, if_neg hd, List.drop_length]
    exact ⟨_, rfl⟩
  · have hpm : ¬ (some '+' : Option Char) = some '-' := by decide
    simp only [floatOfChars, List.cons_append, List.nil_append, List.head?_cons,
      List.tail_cons, hpm, false_or, or_true, if_true, ite_true, if_false, ite_false]
    rw [takeWhile_all Char.isDigit d hdig, if_neg hd, List.drop_length]
    exact ⟨_, rfl⟩

/-- Python `float()` accepts an optionally signed `digits.digits` string. -/
lemma floatOfChars_frac (pre : List Char)
    (hpre : pre = [] ∨ pre = ['-'] ∨ pre = ['+'])
    (d1 d2 : List Char) (hd1 : ¬ d1 = []) (h1 : ∀ c ∈ d1, c.isDigit)
    (hd2 : ¬ d2 = []) (h2 : ∀ c ∈ d2, c.isDigit) :
    ∃ q, floatOfChars (pre ++ d1 ++ '.' :: d2) = some q := by
  have hstop : ∀ c, ('.' :: d2).head? = some c → c.isDigit = false := by
    intro c hc
    obtain rfl := Option.some.inj hc
    decide
  have htw : (d1 ++ '.' :: d2).takeWhile Char.isDigit = d1 :=
    takeWhile_digits_stop d1 ('.' :: d2) h1 hstop
  have hdp : (d1 ++ '.' :: d2).drop d1.length = '.' :: d2 := List.drop_left d1 _
  have hcond : d2 ≠ [] ∧ d2.all Char.isDigit = true :=
    ⟨hd2, List.all_eq_true.mpr (fun c hc => h2 c hc)⟩
  rcases hpre with rfl | rfl | rfl
  · obtain ⟨c0, d', hc0d⟩ : ∃ c0 d', d1 = c0 :: d' := by
      cases d1 with
      | nil => exact absurd rfl hd1
      | cons a b => exact ⟨a, b, rfl⟩
    have hc0 : c0.isDigit := h1 c0 (hc0d ▸ List.mem_cons_self c0 d')
    have hh1 : ¬ (d1 ++ '.' :: d2).head? = some '-' := by
      subst hc0d
      simp only [List.cons_append, List.head?_cons, Option.some.injEq]
      intro h
      rw [h] at hc0
      exact absurd hc0 (by decide)
    have hh2 : ¬ (d1 ++ '.' :: d2).head? = some '+' := by
      subst hc0d
      simp only [List.cons_append, List.head?_cons, Option.some.injEq]
      intro h
      rw [h] at hc0
      exact absurd hc0 (by decide)
    simp only [floatOfChars, List.nil_append]
    rw [if_neg (not_or.mpr ⟨hh1, hh2⟩), if_neg hh1, htw, if_neg hd1, hdp]
    refine ⟨(1 : ℚ) * ((digitsToNat d1 : ℚ) + (digitsToNat d2 : ℚ) / 10 ^ d2.length), ?_⟩
    show (if d2 ≠ [] ∧ d2.all Char.isDigit = true then
        some ((1 : ℚ) * ((digitsToNat d1 : ℚ) + (digitsToNat d2 : ℚ) / 10 ^ d2.length))
      else none) =
      some ((1 : ℚ) * ((digitsToNat d1 : ℚ) + (digitsToNat d2 : ℚ) / 10 ^ d2.length))
    rw [if_pos hcond]
  · simp only [floatOfChars, List.cons_append, List.nil_append, List.head?_cons,
      List.tail_cons, true_or, if_true, ite_true]
    rw [htw, if_neg hd1, hdp]
    refine ⟨(-1 : ℚ) * ((digitsToNat d1 : ℚ) + (digitsToNat d2 : ℚ) / 10 ^ d2.length), ?_⟩
    show (if d2 ≠ [] ∧ d2.all Char.isDigit = true then
        some ((-1 : ℚ) * ((digitsToNat d1 : ℚ) + (digitsToNat d2 : ℚ) / 10 ^ d2.length))
      else none) =
      some ((-1 : ℚ) * ((digitsToNat d1 : ℚ) + (digitsToNat d2 : ℚ) / 10 ^ d2.length))
    rw [if_pos hcond]
  · have hpm : ¬ (some '+' : Option Char) = some '-' := by decide
    simp only [floatOfChars, List.cons_append, List.nil_append, List.head?_cons,
      List.tail_cons, hpm, false_or, or_true, if_true, ite_true, if_false, ite_false]
    rw [htw, if_neg hd1, hdp]
    refine ⟨(1 : ℚ) * ((digitsToNat d1 : ℚ) + (digitsToNat d2 : ℚ) / 10 ^ d2.length), ?_⟩
    show (if d2 ≠ [] ∧ d2.all Char.isDigit = true then
        some ((1 : ℚ) * ((digitsToNat d1 : ℚ) + (digitsToNat d2 : ℚ) / 10 ^ d2.length))
      else none) =
      some ((1 : ℚ) * ((digitsToNat d1 : ℚ) + (digitsToNat d2 : ℚ) / 10 ^ d2.length))
    rw [if_pos hcond]

/-- The sign characters survive the replace steps unchanged. -/
lemma transform_sign (c : Char) (hc : c = '-' ∨ c = '+') (r : List Char) :
    ((c :: r).filter (fun x => ¬ x = '.')).map (fun x => if x = ',' then '.' else x) =
      c :: (r.filter (fun x => ¬ x = '.')).map (fun x => if x = ',' then '.' else x) := by
  rcases hc with rfl | rfl <;> simp

/-- Any string matched by the regex, after `replace(".", "")` and
`replace(",", ".")`, is accepted by `float()`. -/
lemma floatOfChars_of_shape (m : List Char) (h : numShape m) :
    ∃ q, floatOfChars ((m.filter (fun c => ¬ c = '.')).map
      (fun c => if c = ',' then '.' else c)) = some q := by
  have core : ∀ m2 (pre : List Char), pre = [] ∨ pre = ['-'] ∨ pre = ['+'] →
      numTail m2 →
      ∃ q, floatOfChars (pre ++ (m2.filter (fun c => ¬ c = '.')).map
        (fun c => if c = ',' then '.' else c)) = some q := by
    intro m2 pre hpre ht
    obtain ⟨d1, tl, rfl, hd1, hdig, htl⟩ := ht
    rw [List.filter_append, List.map_append, transform_digits d1 hdig]
    rcases htl with rfl | ⟨c, d2, hc, rfl, hd2, h2⟩
    · simp only [List.filter_nil, List.map_nil, List.append_nil]
      exact floatOfChars_digits pre hpre d1 hd1 hdig
    · rcases hc with rfl | rfl
      · have hdd : (('.' :: d2).filter (fun c => ¬ c = '.')).map
            (fun c => if c = ',' then '.' else c) = d2 := by
          simp only [List.filter_cons]
          rw [if_neg (by simp)]
          exact transform_digits d2 h2
        rw [hdd]
        have hall : ∀ c ∈ d1 ++ d2, c.isDigit := by
          intro c hcm
          rcases List.mem_append.mp hcm with hcm | hcm
          · exact hdig c hcm
          · exact h2 c hcm
        have hne : ¬ d1 ++ d2 = [] := by
          intro he
          exact hd1 (List.append_eq_nil.mp he).1
        exact floatOfChars_digits pre hpre (d1 ++ d2) hne hall
      · have hdd : ((',' :: d2).filter (fun c => ¬ c = '.')).map
            (fun c => if c = ',' then '.' else c) = '.' :: d2 := by
          simp only [List.filter_cons]
          rw [if_pos (by simp)]
          simp only [List.map_cons, if_true, ite_true]
          rw [transform_digits d2 h2]
        rw [hdd]
        obtain ⟨q, hq⟩ := floatOfChars_frac pre hpre d1 d2 hd1 hdig hd2 h2
        rw [List.append_assoc] at hq
        exact ⟨q, hq⟩
  rcases h with ht | ⟨c, m2, hc, rfl, ht⟩
  · simpa using core m [] (Or.inl rfl) ht
  · rw [transform_sign c hc]
    have hr := core m2 [c]
      (Or.inr (hc.imp (fun h2 => by rw [h2]) (fun h2 => by rw [h2]))) ht
    simpa using hr

/-- C10: `parse_float_es` is total — when the character-level stage (strip,
lower, sentinel check, regex search, dot-deletion and comma-to-dot
replacement) produces a number string, the final `float()` conversion always
succeeds, so the function returns a number or `None` and the `ValueError`
branch is unreachable; dots are deleted as thousands separators, so `"1.5"`
parses to `15` while `"1,5"` parses to `3/2 = 1.5`. -/
theorem parse_float_es_spec :
    (∀ (s : String) (num : List Char), matched_num s = some num →
      ∃ q, parse_float_es s = some q) ∧
    parse_float_es "1.5" = some 15 ∧
    parse_float_es "1,5" = some (3 / 2) := by
  refine ⟨?_, ?_, ?_⟩
  · intro s num hm
    have hexist : ∃ m, searchNum (toLowerStr (stripStr s)).data = some m ∧
        num = (m.filter (fun c => ¬ c = '.')).map (fun c => if c = ',' then '.' else c) := by
      by_cases h1 : s = ""
      · rw [matched_num, if_pos h1] at hm
        exact absurd hm (by simp)
      · rw [matched_num, if_neg h1] at hm
        by_cases h2 : toLowerStr (stripStr s) ∈ sentinelStrings
        · rw [if_pos h2] at hm
          exact absurd hm (by simp)
        · rw [if_neg h2] at hm
          cases hs : searchNum (toLowerStr (stripStr s)).data with
          | none => rw [hs] at hm; exact absurd hm (by simp)
          | some m =>
            rw [hs] at hm
            exact ⟨m, rfl, (Option.some.inj hm).symm⟩
    obtain ⟨m, hs, rfl⟩ := hexist
    obtain ⟨q, hq⟩ := floatOfChars_of_shape m (searchNum_shape _ m hs)
    refine ⟨q, ?_⟩
    rw [parse_float_es, hm]
    exact hq
  · have h : matched_num "1.5" = some ['1', '5'] := by decide
    rw [parse_float_es, h]
    show some ((1 : ℚ) * ((15 : ℕ) : ℚ)) = some 15
    norm_num
  · have h : matched_num "1,5" = some ['1', '.', '5'] := by decide
    rw [parse_float_es, h]
    show some ((1 : ℚ) * (((1 : ℕ) : ℚ) + ((5 : ℕ) : ℚ) / 10 ^ 1)) = some (3 / 2)
    norm_num

/-- Witness for C10: the regex stage matches on `"1.5"`, and the conversion
then succeeds. -/
theorem parse_float_es_spec_witness :
    ∃ q, parse_float_es "1.5" = some q :=
  parse_float_es_spec.1 "1.5" ['1', '5'] (by decide)
